import Mathlib

/-!
Verification development for the node-ical recurrence-expansion core.

The definitions below are a shallow embedding of the repository's
timezone utilities (`src/tz-utils.js`), its date-key encoder
(`src/lib/date-utils.js`) and — modelled from the specification, since its
implementation is not part of the sources — the expansion engine.
JavaScript `Date` values are modelled as epoch milliseconds (`Int`) with
the non-enumerable `tz` / `dateOnly` metadata carried explicitly; the
platform services (host zone, Intl zone validation, the Windows-zones
table, the Temporal zone database) are modelled as an explicit
environment record.
-/

set_option maxRecDepth 8000

namespace NodeIcal

/-! ## Civil (proleptic Gregorian) calendar arithmetic

These model the calendar conversions that JavaScript `Date` /
`Temporal` perform: epoch milliseconds to UTC calendar fields and back.
-/

/-- Days-from-civil: days since 1970-01-01 of the Gregorian date (y, m, d). -/
def daysFromCivil (y m d : Int) : Int :=
  let y' := y - (if m ≤ 2 then 1 else 0)
  let era := Int.fdiv y' 400
  let yoe := y' - era * 400
  let mp := Int.fmod (m + 9) 12
  let doy := Int.fdiv (153 * mp + 2) 5 + d - 1
  let doe := yoe * 365 + Int.fdiv yoe 4 - Int.fdiv yoe 100 + doy
  era * 146097 + doe - 719468

/-- Civil-from-days: the Gregorian date (y, m, d) of a count of days since 1970-01-01. -/
def civilFromDays (z0 : Int) : Int × Int × Int :=
  let z := z0 + 719468
  let era := Int.fdiv z 146097
  let doe := Int.fmod z 146097
  let yoe := Int.fdiv (doe - Int.fdiv doe 1460 + Int.fdiv doe 36524 - Int.fdiv doe 146096) 365
  let y := yoe + era * 400
  let doy := doe - (365 * yoe + Int.fdiv yoe 4 - Int.fdiv yoe 100)
  let mp := Int.fdiv (5 * doy + 2) 153
  let d := doy - Int.fdiv (153 * mp + 2) 5 + 1
  let m := mp + (if mp < 10 then 3 else (-9 : Int))
  (y + (if m ≤ 2 then 1 else 0), m, d)

def isLeapYear (y : Int) : Bool :=
  (Int.fmod y 4 = 0 ∧ Int.fmod y 100 ≠ 0) ∨ Int.fmod y 400 = 0

def daysInMonth (y m : Int) : Int :=
  if m = 2 then (if isLeapYear y then 29 else 28)
  else if m = 4 ∨ m = 6 ∨ m = 9 ∨ m = 11 then 30
  else 31

/-- Left-pad the decimal representation of a natural with zeros to width 2
(models the JS `String(value).padStart(2, '0')` / `pad2`). -/
def pad2 (n : Nat) : String :=
  if n < 10 then "0" ++ toString n else toString n

def pad3 (n : Nat) : String :=
  if n < 10 then "00" ++ toString n
  else if n < 100 then "0" ++ toString n
  else toString n

def pad4 (n : Nat) : String :=
  if n < 10 then "000" ++ toString n
  else if n < 100 then "00" ++ toString n
  else if n < 1000 then "0" ++ toString n
  else toString n

/-- The year component as `Date.prototype.toISOString` renders it:
four padded digits for 0..9999, otherwise the expanded ±YYYYYY form. -/
def isoYearString (y : Int) : String :=
  if 0 ≤ y ∧ y ≤ 9999 then pad4 y.toNat
  else if y < 0 then "-" ++ pad4 (-y).toNat
  else "+" ++ pad4 y.toNat

def msPerDay : Int := 86400000

/-- Calendar fields (y, m, d, hh, mm, ss, ms) of an epoch-milliseconds value
read on the UTC timeline. -/
def utcFields (ms : Int) : Int × Int × Int × Nat × Nat × Nat × Nat :=
  let days := Int.fdiv ms msPerDay
  let rem := (Int.fmod ms msPerDay).toNat
  let c := civilFromDays days
  (c.1, c.2.1, c.2.2, rem / 3600000, rem / 60000 % 60, rem / 1000 % 60, rem % 1000)

/-- The `YYYY-MM-DD` rendering used by `Temporal.PlainDate.toString` and by
the `toISOString` date portion (4-digit padded year). -/
def ymdString (y m d : Int) : String :=
  isoYearString y ++ "-" ++ pad2 m.toNat ++ "-" ++ pad2 d.toNat

/-- The first `n` code units of a string (JS `slice(0, n)`), structurally. -/
def sliceTo (s : String) (n : Nat) : String := String.mk (s.data.take n)

/-- Models `Date.prototype.toISOString` (`YYYY-MM-DDTHH:mm:ss.sssZ`). -/
def toISOString (ms : Int) : String :=
  let f := utcFields ms
  ymdString f.1 f.2.1 f.2.2.1 ++ "T" ++ pad2 f.2.2.2.1 ++ ":" ++ pad2 f.2.2.2.2.1
    ++ ":" ++ pad2 f.2.2.2.2.2.1 ++ "." ++ pad3 f.2.2.2.2.2.2 ++ "Z"

/-! ## JavaScript `Date` values and the platform environment -/

/-- A JS `Date` as the engine sees it: the UTC instant plus the
non-enumerable `tz` / `dateOnly` metadata node-ical attaches. -/
structure JSDate where
  epochMs : Int
  tz : Option String := none
  dateOnly : Bool := false
deriving DecidableEq, Repr

/-- A time zone with (at most) one UTC-offset transition, as needed to model
Temporal's wall-time disambiguation: `before` minutes east of UTC for
instants strictly before `t`, `after` minutes at and after `t`. -/
structure SimpleZone where
  t : Int
  before : Int
  after : Int
deriving DecidableEq, Repr

/-- The platform services the JavaScript code draws on.
`localZone`/`localOffset` model the host zone (local `Date` getters and
`Intl.DateTimeFormat().resolvedOptions().timeZone`); `aliasGet` the
module's alias map; `validIana` the memoized `Intl` zone-validity check;
`windowsExact`/`windowsIndex` the `windowsZones.json` table and the
normalized-label index built from it; `zoneCivil` the calendar date
`Temporal.Instant…toZonedDateTimeISO(id).toPlainDate()` produces for an
instant in a zone (`none` models a Temporal failure); `zoneModel` the
offset behaviour `Temporal.PlainDateTime…toZonedDateTime` uses. -/
structure Env where
  localZone : String
  localOffset : Int → Int
  aliasGet : String → Option String
  validIana : String → Bool
  windowsExact : String → Option (List String)
  windowsIndex : String → Option (List String)
  zoneCivil : String → Int → Option (Int × Int × Int)
  zoneModel : String → Option SimpleZone

/-! ## `src/tz-utils.js` — offset-label parsing -/

/-- JS `\s` on the ASCII range (space, tab, LF, VT, FF, CR). -/
def isJsSpace (c : Char) : Bool :=
  c = ' ' ∨ c = '\t' ∨ c = '\n' ∨ c = '\x0b' ∨ c = '\x0c' ∨ c = '\r'

/-- Models `String.prototype.trim`. -/
def jsTrim (cs : List Char) : List Char :=
  ((cs.dropWhile isJsSpace).reverse.dropWhile isJsSpace).reverse

def isDigit (c : Char) : Bool :=
  '0' ≤ c ∧ c ≤ '9'

def digitVal (c : Char) : Nat := c.toNat - '0'.toNat

def lowerAscii (c : Char) : Char :=
  if 'A' ≤ c ∧ c ≤ 'Z' then Char.ofNat (c.toNat + 32) else c

/-- Match of `/^\(?(?:utc|gmt)\)?\s*/i` at the head of the list: returns the
remainder when the pattern matches, otherwise leaves the list unchanged
(the JS `replace` with no match). -/
def dropUtcGmtHead (cs : List Char) : List Char :=
  let afterParen := match cs with
    | '(' :: rest => rest
    | rest => rest
  match afterParen.map lowerAscii with
  | 'u' :: 't' :: 'c' :: _ =>
      let rest := afterParen.drop 3
      let rest := match rest with
        | ')' :: r => r
        | r => r
      rest.dropWhile isJsSpace
  | 'g' :: 'm' :: 't' :: _ =>
      let rest := afterParen.drop 3
      let rest := match rest with
        | ')' :: r => r
        | r => r
      rest.dropWhile isJsSpace
  | _ => cs

/-- Prefix test on character lists (structural recursion, so that kernel
reduction works; `String.startsWith` itself is defined by well-founded
recursion). -/
def charsStartWith : List Char → List Char → Bool
  | _, [] => true
  | [], _ :: _ => false
  | a :: as, p :: ps => a == p && charsStartWith as ps

/-- `String.prototype.split(',')` on a character list. -/
def splitComma : List Char → List (List Char)
  | [] => [[]]
  | c :: rest =>
    let r := splitComma rest
    if c = ',' then [] :: r
    else
      match r with
      | [] => [[c]]
      | g :: gs => (c :: g) :: gs

/-- Models `replace(/\)$/, '')`. -/
def dropCloseParenTail (cs : List Char) : List Char :=
  match cs.reverse with
  | ')' :: rest => rest.reverse
  | _ => cs

/-- The trimming/stripping pipeline of `offsetLabelToMinutes`:
`trim`, strip an optional leading `UTC`/`GMT` (with optional parentheses),
strip one trailing `)`, `trim` again. -/
def stripOffsetLabel (s : String) : List Char :=
  jsTrim (dropCloseParenTail (dropUtcGmtHead (jsTrim s.data)))

/-- The regex `^([+-])(\d{1,2})(?::?(\d{2}))?$` with JS greedy matching and
backtracking, resolved into its (unique) deterministic case analysis.
Returns (negative?, hours, minutes). -/
def matchOffsetCore (cs : List Char) : Option (Bool × Nat × Nat) :=
  match cs with
  | sign :: rest =>
    if sign = '+' ∨ sign = '-' then
      let neg : Bool := decide (sign = '-')
      match rest with
      | [a] => if isDigit a then some (neg, digitVal a, 0) else none
      | [a, b] =>
          if isDigit a ∧ isDigit b then some (neg, digitVal a * 10 + digitVal b, 0) else none
      | [a, b, c] =>
          if isDigit a ∧ isDigit b ∧ isDigit c then
            some (neg, digitVal a, digitVal b * 10 + digitVal c)
          else none
      | [a, b, c, d] =>
          if isDigit a ∧ b = ':' ∧ isDigit c ∧ isDigit d then
            some (neg, digitVal a, digitVal c * 10 + digitVal d)
          else if isDigit a ∧ isDigit b ∧ isDigit c ∧ isDigit d then
            some (neg, digitVal a * 10 + digitVal b, digitVal c * 10 + digitVal d)
          else none
      | [a, b, c, d, e] =>
          if isDigit a ∧ isDigit b ∧ c = ':' ∧ isDigit d ∧ isDigit e then
            some (neg, digitVal a * 10 + digitVal b, digitVal d * 10 + digitVal e)
          else none
      | _ => none
    else none
  | [] => none

/-- `offsetLabelToMinutes` from `src/tz-utils.js`: textual UTC offsets
("+05:30", "UTC-4", "(UTC+02:00)") to signed minute counts. -/
def offsetLabelToMinutes (s : String) : Option Int :=
  if s = "" then none
  else
    match matchOffsetCore (stripOffsetLabel s) with
    | none => none
    | some (neg, hours, minutes) =>
        if minutes ≥ 60 then none
        else if hours > 14 ∨ (hours = 14 ∧ minutes ≠ 0) then none
        else
          let total : Int := hours * 60 + minutes
          some (if neg then -total else total)

/-- `minutesToOffset` from `src/tz-utils.js`: signed minutes to a `±HH:MM` label. -/
def minutesToOffset (totalMinutes : Int) : String :=
  let sign := if totalMinutes < 0 then "-" else "+"
  let absolute := totalMinutes.natAbs
  sign ++ pad2 (absolute / 60) ++ ":" ++ pad2 (absolute % 60)

/-- `minutesToEtcZone` from `src/tz-utils.js` (note the inverted sign of
`Etc/GMT±N` zone names). -/
def minutesToEtcZone (totalMinutes : Int) : Option String :=
  if totalMinutes = 0 then some "Etc/GMT"
  else if Int.fmod totalMinutes 60 ≠ 0 then none
  else
    let hours := totalMinutes.natAbs / 60
    let sign := if totalMinutes > 0 then "-" else "+"
    some ("Etc/GMT" ++ sign ++ toString hours)

/-! ## `src/tz-utils.js` — Windows labels, aliases, zone validity -/

/-- One `/\s+/g → ' '` collapse step: every whitespace char becomes a space. -/
def spacesToBlank (cs : List Char) : List Char :=
  cs.map fun c => if isJsSpace c then ' ' else c

/-- Squeeze runs of spaces to a single space. -/
def squeezeBlanks : List Char → List Char
  | [] => []
  | [c] => [c]
  | a :: b :: rest =>
      if a = ' ' ∧ b = ' ' then squeezeBlanks (b :: rest)
      else a :: squeezeBlanks (b :: rest)

/-- `normalizeWindowsLabel` from `src/tz-utils.js`: collapse whitespace,
trim, lowercase (ASCII model of `toLowerCase`). -/
def normalizeWindowsLabel (label : String) : String :=
  String.mk ((jsTrim (squeezeBlanks (spacesToBlank label.data))).map lowerAscii)

/-- First comma-separated segment whose normalized form hits the index. -/
def firstSegmentHit (env : Env) : List String → Option String
  | [] => none
  | seg :: rest =>
      match env.windowsIndex (normalizeWindowsLabel seg) with
      | some (x :: _) => some x
      | _ => firstSegmentHit env rest

/-- `mapWindowsZone` from `src/tz-utils.js`: exact table key, then the
normalized-label index, then each comma-separated segment. -/
def mapWindowsZone (env : Env) (label : String) : Option String :=
  match env.windowsExact label with
  | some (x :: _) => some x
  | _ =>
    match env.windowsIndex (normalizeWindowsLabel label) with
    | some (x :: _) => some x
    | _ =>
      if label.data.contains ',' then
        firstSegmentHit env ((splitComma label.data).map String.mk)
      else none

/-- `resolveZone` from `src/tz-utils.js` (`aliasMap.get(zone) || zone`). -/
def resolveZone (env : Env) (zone : String) : String :=
  if zone = "" then zone
  else
    match env.aliasGet zone with
    | some a => if a = "" then zone else a
    | none => zone

/-- `isValidIana` from `src/tz-utils.js`: alias-resolve, then the (memoized)
`Intl` capability check. -/
def isValidIana (env : Env) (zone : String) : Bool :=
  if zone = "" then false
  else
    let tz := resolveZone env zone
    if tz = "" then false else env.validIana tz

/-- `findExactZoneMatch` from `src/tz-utils.js`. -/
def findExactZoneMatch (env : Env) (tz : Option String) : Option String :=
  match tz with
  | none => none
  | some z0 =>
    if z0 = "" then none
    else
      let z := resolveZone env z0
      if isValidIana env z then some z else none

/-! ## `src/tz-utils.js` — `resolveTZID` -/

/-- Match of `/([+-]\d{1,2}:\d{2})/` anchored at the head of the list
(JS greedy hours with backtracking), returning the matched fragment. -/
def matchOffsetFragAt (cs : List Char) : Option (List Char) :=
  match cs with
  | s :: a :: ':' :: c :: d :: _ =>
      if (s = '+' ∨ s = '-') ∧ isDigit a ∧ isDigit c ∧ isDigit d then
        some [s, a, ':', c, d]
      else none
  | s :: a :: b :: ':' :: c :: d :: _ =>
      if (s = '+' ∨ s = '-') ∧ isDigit a ∧ isDigit b ∧ isDigit c ∧ isDigit d then
        some [s, a, b, ':', c, d]
      else none
  | _ => none

/-- Leftmost match of `/([+-]\d{1,2}:\d{2})/` in the list. -/
def findOffsetFragment : List Char → Option (List Char)
  | [] => none
  | c :: rest =>
      match matchOffsetFragAt (c :: rest) with
      | some frag => some frag
      | none => findOffsetFragment rest

/-- Models `replace(/^"(.*)"$/, '$1')`: strip one pair of surrounding ASCII
double quotes (JS `.` does not cross line terminators). -/
def stripSurroundingQuotes (s : String) : String :=
  match s.data with
  | [] => s
  | c :: rest =>
    if c = Char.ofNat 34 then
      match rest.reverse with
      | d :: midRev =>
          if d = Char.ofNat 34 ∧ midRev.all (fun x => x ≠ '\n' ∧ x ≠ '\r') then
            String.mk midRev.reverse
          else s
      | [] => s
    else s

/-- The Microsoft custom-zone placeholders that are substituted by the
host's local zone. -/
def isMicrosoftPlaceholder (s : String) : Bool :=
  s = "tzone://Microsoft/Custom"
    ∨ charsStartWith s.data "Customized Time Zone".data
    ∨ charsStartWith s.data "tzone://Microsoft/".data

/-- The zone-descriptor record `resolveTZID` returns. -/
structure TZDescriptor where
  original : Option String
  iana : Option String
  offset : Option String
  offsetMinutes : Option Int
  etc : Option String
deriving DecidableEq, Repr

def emptyDescriptor : TZDescriptor :=
  ⟨none, none, none, none, none⟩

/-- The Windows-mapping and offset-extraction steps of `resolveTZID`,
applied to the substituted and quote-stripped TZID: returns the derived
`offsetMinutes` and the remaining `tz` value (`none` models the source
setting `tz = null`). -/
def resolveTZIDCore (env : Env) (tz1 : String) : Option Int × Option String :=
  let tz2 :=
    if tz1 ≠ "" ∧ (tz1.data.contains ' ' ∨ tz1.data.contains ',') then
      match mapWindowsZone env tz1 with
      | some mapped => mapped
      | none => tz1
    else tz1
  let st : Option Int × Option String :=
    if tz2 ≠ "" ∧ charsStartWith tz2.data ['('] then
      (match findOffsetFragment tz2.data with
       | some frag => offsetLabelToMinutes (String.mk frag)
       | none => none,
       none)
    else (none, some tz2)
  match st with
  | (none, some tz) =>
    if tz ≠ "" then
      match offsetLabelToMinutes tz with
      | some mins => (some mins, none)
      | none => (none, some tz)
    else (none, some tz)
  | other => other

/-- `resolveTZID` from `src/tz-utils.js`. A `none` input models any
non-string JavaScript value (the `typeof value !== 'string'` guard). -/
def resolveTZID (env : Env) (value : Option String) : TZDescriptor :=
  match value with
  | none => emptyDescriptor
  | some v =>
    if v = "" then emptyDescriptor
    else
      let tz0 := if isMicrosoftPlaceholder v then env.localZone else v
      let original := stripSurroundingQuotes tz0
      let st2 := resolveTZIDCore env original
      let offsetMinutes := st2.1
      let tz := st2.2
      let exact := findExactZoneMatch env tz
      let iana :=
        match exact with
        | some z => some z
        | none =>
          match tz with
          | some z => if z ≠ "" ∧ isValidIana env z then some z else none
          | none => none
      { original := some original
        iana := iana
        offset := offsetMinutes.map minutesToOffset
        offsetMinutes := offsetMinutes
        etc := match offsetMinutes with
          | some om => minutesToEtcZone om
          | none => none }

/-! ## `src/tz-utils.js` — wall-time conversion -/

/-- `attachTz` from `src/tz-utils.js`: attach the TZID metadata (no-op on a
falsy tzid). -/
def attachTz (d : JSDate) (tzid : String) : JSDate :=
  if tzid = "" then d else { d with tz := some tzid }

def d2v (a b : Char) : Nat := digitVal a * 10 + digitVal b

def d4v (a b c d : Char) : Nat :=
  digitVal a * 1000 + digitVal b * 100 + digitVal c * 10 + digitVal d

/-- Match of `/^(\d{4})-(\d{2})-(\d{2})[ T](\d{2}):(\d{2})(?::(\d{2}))?$/`:
(year, month, day, hour, minute, second). -/
def matchExtendedDT (cs : List Char) : Option (Int × Int × Int × Int × Int × Int) :=
  match cs with
  | y1 :: y2 :: y3 :: y4 :: '-' :: m1 :: m2 :: '-' :: d1 :: d2 :: sep :: h1 :: h2
      :: ':' :: n1 :: n2 :: rest =>
    if [y1, y2, y3, y4, m1, m2, d1, d2, h1, h2, n1, n2].all isDigit
        ∧ (sep = ' ' ∨ sep = 'T') then
      match rest with
      | [] => some (d4v y1 y2 y3 y4, d2v m1 m2, d2v d1 d2, d2v h1 h2, d2v n1 n2, 0)
      | [':', s1, s2] =>
          if isDigit s1 ∧ isDigit s2 then
            some (d4v y1 y2 y3 y4, d2v m1 m2, d2v d1 d2, d2v h1 h2, d2v n1 n2, d2v s1 s2)
          else none
      | _ => none
    else none
  | _ => none

/-- Match of `/^(\d{4})(\d{2})(\d{2})T(\d{2})(\d{2})(\d{2})?$/`. -/
def matchCompactDT (cs : List Char) : Option (Int × Int × Int × Int × Int × Int) :=
  match cs with
  | y1 :: y2 :: y3 :: y4 :: m1 :: m2 :: d1 :: d2 :: 'T' :: h1 :: h2 :: n1 :: n2 :: rest =>
    if [y1, y2, y3, y4, m1, m2, d1, d2, h1, h2, n1, n2].all isDigit then
      match rest with
      | [] => some (d4v y1 y2 y3 y4, d2v m1 m2, d2v d1 d2, d2v h1 h2, d2v n1 n2, 0)
      | [s1, s2] =>
          if isDigit s1 ∧ isDigit s2 then
            some (d4v y1 y2 y3 y4, d2v m1 m2, d2v d1 d2, d2v h1 h2, d2v n1 n2, d2v s1 s2)
          else none
      | _ => none
    else none
  | _ => none

/-- `Temporal.PlainDateTime.from` field validation with the default
`overflow: 'constrain'`: clamp each field into its valid range. -/
def constrainFields (y mo d h mi s : Int) : Int × Int × Int × Int × Int × Int :=
  let mo' := max 1 (min 12 mo)
  let d' := max 1 (min (daysInMonth y mo') d)
  (y, mo', d', min 23 h, min 59 mi, min 59 s)

/-- The epoch milliseconds of wall-clock fields read on the UTC timeline. -/
def wallClockMs (y mo d h mi s : Int) : Int :=
  daysFromCivil y mo d * msPerDay + h * 3600000 + mi * 60000 + s * 1000

/-- The instants whose wall-clock representation in the zone equals the
given wall-clock milliseconds (Temporal `GetPossibleInstantsFor`),
in ascending order. -/
def possibleInstants (sz : SimpleZone) (wallMs : Int) : List Int :=
  (if wallMs - sz.before * 60000 < sz.t then [wallMs - sz.before * 60000] else [])
    ++ (if wallMs - sz.after * 60000 ≥ sz.t then [wallMs - sz.after * 60000] else [])

/-- Temporal's `disambiguation: 'later'`: in a fold take the later possible
instant; in a gap shift the wall time past the gap, which lands on the
instant obtained from the pre-transition offset. -/
def disambiguateLater (sz : SimpleZone) (wallMs : Int) : Int :=
  match possibleInstants sz wallMs with
  | [] => wallMs - sz.before * 60000
  | [x] => x
  | _ :: x :: _ => x

/-- `parseDateTimeInZone` from `src/tz-utils.js`: interpret a local
wall-time string in an IANA zone and return the UTC instant, with the
zone identifier (as passed by the caller) attached as `tz` metadata. -/
def parseDateTimeInZone (env : Env) (s zone : String) : Option JSDate :=
  let fields? :=
    match matchExtendedDT s.data with
    | some f => some f
    | none => matchCompactDT s.data
  match fields? with
  | none => none
  | some (y, mo, d, h, mi, sec) =>
    let tz := resolveZone env zone
    if ¬ isValidIana env tz then none
    else
      let f := constrainFields y mo d h mi sec
      let wallMs := wallClockMs f.1 f.2.1 f.2.2.1 f.2.2.2.1 f.2.2.2.2.1 f.2.2.2.2.2
      match env.zoneModel tz with
      | none => none
      | some sz => some (attachTz { epochMs := disambiguateLater sz wallMs } zone)

/-- `Date.UTC(year, monthIndex, day, hour, minute, second)` per the ECMA
`MakeDay`/`MakeTime` semantics: out-of-range fields roll over, and years
0–99 are interpreted as 1900–1999. -/
def dateUTC (y mIdx d h mi s : Int) : Int :=
  let y := if 0 ≤ y ∧ y ≤ 99 then 1900 + y else y
  let ym := y + Int.fdiv mIdx 12
  let mn := Int.fmod mIdx 12
  (daysFromCivil ym (mn + 1) 1 + (d - 1)) * msPerDay + h * 3600000 + mi * 60000 + s * 1000

/-- `parseWithOffset` from `src/tz-utils.js`. `Except` models the thrown
`TypeError`; `.ok none` models the `undefined` return. -/
def parseWithOffset (s offset : String) : Except String (Option JSDate) :=
  let m :=
    match matchCompactDT s.data with
    | some f => some f
    | none => matchExtendedDT s.data
  match m with
  | none => .ok none
  | some (y, mo, d, h, mi, sec) =>
    match offsetLabelToMinutes offset with
    | none => .error ("Invalid offset string: " ++ offset)
    | some totalMinutes =>
      let utcMs := dateUTC y (mo - 1) d h mi sec - totalMinutes * 60000
      .ok (some (attachTz { epochMs := utcMs } (minutesToOffset totalMinutes)))

/-! ## `src/lib/date-utils.js` — the date-key encoder -/

/-- The `resolved?.iana || resolved?.offset` zone identifier a descriptor
yields for Temporal use. -/
def tzIdOf (r : TZDescriptor) : Option String :=
  match r.iana with
  | some z => some z
  | none => r.offset

/-- The `dateOnly` branch of `getDateKey`: the template literal over the
local getters `getFullYear`/`getMonth`/`getDate` (year unpadded,
month/day zero-padded). -/
def localCalendarKey (env : Env) (ms : Int) : String :=
  let c := civilFromDays (Int.fdiv (ms + env.localOffset ms * 60000) msPerDay)
  toString c.1 ++ "-" ++ pad2 c.2.1.toNat ++ "-" ++ pad2 c.2.2.toNat

/-- The UTC fallback of `getDateKey`: `toISOString().slice(0, 10)`. -/
def utcDateKey (ms : Int) : String := sliceTo (toISOString ms) 10

/-- `getDateKey` from `src/lib/date-utils.js`: the canonical `YYYY-MM-DD`
key of a `Date` value. `env.zoneCivil` returning `none` models a Temporal
failure, which the source catches and turns into the UTC fallback. -/
def getDateKey (env : Env) (d : JSDate) : String :=
  if d.dateOnly then localCalendarKey env d.epochMs
  else
    match d.tz with
    | some tzs =>
      if tzs ≠ "" then
        match tzIdOf (resolveTZID env (some tzs)) with
        | some z =>
          match env.zoneCivil z d.epochMs with
          | some c => ymdString c.1 c.2.1 c.2.2
          | none => utcDateKey d.epochMs
        | none => utcDateKey d.epochMs
      else utcDateKey d.epochMs
    | none => utcDateKey d.epochMs

/-! ## The Expansion Engine

Modelled from the spec: the Expansion Engine `expand` (spec §4.5,
`expandRecurringEvent`) is not among the sources — only its test suites
are — so the definitions in this section follow the specification's data
model (§3) and algorithm (§4.5) directly.
-/

inductive Datetype where
  | date
  | dateTime
deriving DecidableEq, Repr

/-- The Rule Iterator collaborator (spec §4.4): one method
`between(from, to)` returning the base instants in the window. -/
structure RRule where
  between : Int → Int → List JSDate

/-- A per-occurrence override event (same shape as an event, minus the
recurrence machinery). -/
structure OverrideEvent where
  summary : String
  start : JSDate
  endTime : Option JSDate := none
deriving DecidableEq, Repr

/-- The parsed event an expansion request operates on (spec §3). -/
structure Event where
  uid : String
  summary : String
  start : JSDate
  endTime : Option JSDate := none
  duration : Option Int := none
  datetype : Datetype := .dateTime
  rrule : Option RRule := none
  exdate : List String := []
  recurrences : List (String × OverrideEvent) := []

/-- A `from`/`to` request value: a JS value that is not a `Date`, a `Date`
holding `NaN`, or a valid instant. -/
inductive ReqDate where
  | notADate
  | nanDate
  | instant (ms : Int)
deriving DecidableEq, Repr

structure ExpandOptions where
  excludeExdates : Bool := true
  includeOverrides : Bool := true
  expandOngoing : Bool := false
deriving DecidableEq, Repr

/-- The `event` field of an emitted instance: the base event or the
override record that produced it. -/
inductive EventRef where
  | base
  | override (ov : OverrideEvent)
deriving DecidableEq, Repr

/-- An emitted occurrence (spec §3, Instance). -/
structure Instance where
  start : JSDate
  endTime : JSDate
  summary : String
  isFullDay : Bool
  isRecurring : Bool
  isOverride : Bool
  evRef : EventRef
deriving DecidableEq, Repr

inductive ExpandError where
  | invalidArgument
  | rangeError
deriving DecidableEq, Repr

/-- First-match lookup in the `recurrences` map. -/
def lookupRec (key : String) : List (String × OverrideEvent) → Option OverrideEvent
  | [] => none
  | (k, ov) :: rest => if k = key then some ov else lookupRec key rest

/-- Modelled from the spec: the end-derivation chain of §4.5 step 2d for
the cases below an override-supplied end — `start + duration`, else
`start + (event.end − event.start)`, else `start + 24h` for a whole-day
start, else `start`. -/
def deriveEnd (event : Event) (effStart : JSDate) : JSDate :=
  match event.duration with
  | some dur => { epochMs := effStart.epochMs + dur, tz := effStart.tz, dateOnly := effStart.dateOnly }
  | none =>
    match event.endTime with
    | some e =>
        { epochMs := effStart.epochMs + (e.epochMs - event.start.epochMs),
          tz := e.tz, dateOnly := e.dateOnly }
    | none =>
      if effStart.dateOnly then { effStart with epochMs := effStart.epochMs + msPerDay }
      else effStart

/-- Modelled from the spec: §4.5 step 2 (a–d) for one candidate instant —
EXDATE subtraction with the dual key/ISO probe, override substitution,
metadata inheritance and end derivation. `none` means the candidate was
dropped by the EXDATE check. -/
def processCandidate (env : Env) (event : Event) (opts : ExpandOptions) (c : JSDate) :
    Option Instance :=
  let key := getDateKey env c
  if opts.excludeExdates
      ∧ (event.exdate.contains key ∨ event.exdate.contains (toISOString c.epochMs)) then
    none
  else
    match (if opts.includeOverrides then lookupRec key event.recurrences else none) with
    | some ov =>
      let s := ov.start
      let e :=
        match ov.endTime with
        | some oe => oe
        | none => deriveEnd event s
      some { start := s, endTime := e, summary := ov.summary,
             isFullDay := decide (event.datetype = .date) || s.dateOnly,
             isRecurring := event.rrule.isSome, isOverride := true, evRef := .override ov }
    | none =>
      let s : JSDate :=
        { epochMs := c.epochMs, tz := event.start.tz, dateOnly := event.start.dateOnly }
      let e := deriveEnd event s
      some { start := s, endTime := e, summary := event.summary,
             isFullDay := decide (event.datetype = .date) || s.dateOnly,
             isRecurring := event.rrule.isSome, isOverride := false, evRef := .base }

/-- Modelled from the spec: the §4.5 step-1 widening — one day for
whole-day events, the base `end − start` duration for timed events. -/
def widenMs (event : Event) : Int :=
  match event.datetype with
  | .date => msPerDay
  | .dateTime =>
    match event.endTime with
    | some e => e.epochMs - event.start.epochMs
    | none => event.duration.getD 0

/-- Modelled from the spec: §4.5 step 1 — candidates from the rule
iterator over the widened interval, or the single base instant. -/
def candidates (event : Event) (fromMs toMs : Int) : List JSDate :=
  match event.rrule with
  | some r => r.between (fromMs - widenMs event) toMs
  | none => [event.start]

/-- Modelled from the spec: the §4.5 step-2e window filter. -/
def windowAccept (opts : ExpandOptions) (fromMs toMs : Int) (i : Instance) : Bool :=
  if opts.expandOngoing then i.start.epochMs ≤ toMs ∧ i.endTime.epochMs ≥ fromMs
  else fromMs ≤ i.start.epochMs ∧ i.start.epochMs ≤ toMs

/-- Modelled from the spec: `expand(event, {from, to, options})` (spec
§4.5/§6) — input validation, candidate generation, per-candidate
processing, window filtering, and the final sort by ascending start. -/
def expand (env : Env) (event : Event) (rfrom rto : ReqDate) (opts : ExpandOptions) :
    Except ExpandError (List Instance) :=
  match rfrom, rto with
  | .instant fromMs, .instant toMs =>
    if fromMs > toMs then .error .rangeError
    else
      .ok (List.insertionSort (fun a b => a.start.epochMs ≤ b.start.epochMs)
        (((candidates event fromMs toMs).filterMap (processCandidate env event opts)).filter
          (windowAccept opts fromMs toMs)))
  | _, _ => .error .invalidArgument

/-! ## Theorems — the offset-label parser (claim C8) -/

/-- Numeric value of a list of decimal digit characters. -/
def digitsToNat (cs : List Char) : Nat :=
  cs.foldl (fun acc c => 10 * acc + digitVal c) 0

/-- The language of `^([+-])(\d{1,2})(?::?(\d{2}))?$`, stated as the
existence of a decomposition: a sign, one or two hour digits, and an
optional minutes group of two digits with an optional colon before it. -/
def OffsetShape (cs : List Char) (neg : Bool) (h m : Nat) : Prop :=
  ∃ sign hd tail, cs = sign :: (hd ++ tail)
    ∧ (sign = '+' ∨ sign = '-') ∧ neg = decide (sign = '-')
    ∧ hd ≠ [] ∧ hd.length ≤ 2 ∧ hd.all isDigit ∧ h = digitsToNat hd
    ∧ ((tail = [] ∧ m = 0)
        ∨ ∃ c d, (tail = [c, d] ∨ tail = [':', c, d]) ∧ isDigit c ∧ isDigit d ∧ m = d2v c d)

theorem isDigit_ne_colon {c : Char} (hc : isDigit c = true) : c ≠ ':' := by
  intro h
  subst h
  exact absurd hc (by decide)

theorem matchOffsetCore_iff (cs : List Char) (neg : Bool) (h m : Nat) :
    matchOffsetCore cs = some (neg, h, m) ↔ OffsetShape cs neg h m := by
  constructor
  · intro hmatch
    rcases cs with _ | ⟨sign, _ | ⟨a, _ | ⟨b, _ | ⟨c, _ | ⟨d, _ | ⟨e, tail⟩⟩⟩⟩⟩⟩
    · simp [matchOffsetCore] at hmatch
    · by_cases hsign : sign = '+' ∨ sign = '-' <;>
        simp [matchOffsetCore, hsign] at hmatch
    · by_cases hsign : sign = '+' ∨ sign = '-' <;>
        simp only [matchOffsetCore, if_pos, if_neg, hsign, ite_true, ite_false] at hmatch
      · split_ifs at hmatch with ha
        · obtain ⟨hneg, hh, hm⟩ := by
            simpa using hmatch
          exact ⟨sign, [a], [], by simp, hsign, hneg.symm, by simp, by simp, by simpa using ha,
            by simp [digitsToNat, ← hh], Or.inl ⟨rfl, hm.symm⟩⟩
      · cases hmatch
    · by_cases hsign : sign = '+' ∨ sign = '-' <;>
        simp only [matchOffsetCore, hsign, ite_true, ite_false] at hmatch
      · split_ifs at hmatch with hab
        · obtain ⟨hneg, hh, hm⟩ := by simpa using hmatch
          exact ⟨sign, [a, b], [], by simp, hsign, hneg.symm, by simp, by simp,
            by simp [hab.1, hab.2], by simp [digitsToNat, ← hh, Nat.mul_comm],
            Or.inl ⟨rfl, hm.symm⟩⟩
      · cases hmatch
    · by_cases hsign : sign = '+' ∨ sign = '-' <;>
        simp only [matchOffsetCore, hsign, ite_true, ite_false] at hmatch
      · split_ifs at hmatch with habc
        · obtain ⟨hneg, hh, hm⟩ := by simpa using hmatch
          exact ⟨sign, [a], [b, c], by simp, hsign, hneg.symm, by simp, by simp,
            by simp [habc.1], by simp [digitsToNat, ← hh],
            Or.inr ⟨b, c, Or.inl rfl, habc.2.1, habc.2.2, by simp [d2v, ← hm, Nat.mul_comm]⟩⟩
      · cases hmatch
    · by_cases hsign : sign = '+' ∨ sign = '-' <;>
        simp only [matchOffsetCore, hsign, ite_true, ite_false] at hmatch
      · split_ifs at hmatch with h1 h2
        · obtain ⟨hneg, hh, hm⟩ := by simpa using hmatch
          obtain ⟨ha, hbcol, hc, hd⟩ := h1
          subst hbcol
          exact ⟨sign, [a], [':', c, d], by simp, hsign, hneg.symm, by simp, by simp,
            by simp [ha], by simp [digitsToNat, ← hh],
            Or.inr ⟨c, d, Or.inr rfl, hc, hd, by simp [d2v, ← hm, Nat.mul_comm]⟩⟩
        · obtain ⟨hneg, hh, hm⟩ := by simpa using hmatch
          obtain ⟨ha, hb, hc, hd⟩ := h2
          exact ⟨sign, [a, b], [c, d], by simp, hsign, hneg.symm, by simp, by simp,
            by simp [ha, hb], by simp [digitsToNat, ← hh, Nat.mul_comm],
            Or.inr ⟨c, d, Or.inl rfl, hc, hd, by simp [d2v, ← hm, Nat.mul_comm]⟩⟩
      · cases hmatch
    · rcases tail with _ | ⟨f, t2⟩
      · by_cases hsign : sign = '+' ∨ sign = '-' <;>
          simp only [matchOffsetCore, hsign, ite_true, ite_false] at hmatch
        · split_ifs at hmatch with h1
          · obtain ⟨hneg, hh, hm⟩ := by simpa using hmatch
            obtain ⟨ha, hb, hccol, hd, he⟩ := h1
            subst hccol
            exact ⟨sign, [a, b], [':', d, e], by simp, hsign, hneg.symm, by simp, by simp,
              by simp [ha, hb], by simp [digitsToNat, ← hh, Nat.mul_comm],
              Or.inr ⟨d, e, Or.inr rfl, hd, he, by simp [d2v, ← hm, Nat.mul_comm]⟩⟩
        · cases hmatch
      · by_cases hsign : sign = '+' ∨ sign = '-' <;>
          simp [matchOffsetCore, hsign] at hmatch
  · rintro ⟨sign, hd, tail, rfl, hsign, hneg, hne, hlen, hdig, hh, htail⟩
    rcases hd with _ | ⟨a, _ | ⟨b, _ | ⟨x, t⟩⟩⟩
    · exact absurd rfl hne
    · have ha : isDigit a = true := by simpa using hdig
      rcases htail with ⟨rfl, rfl⟩ | ⟨c, d, hcd, hc, hd, rfl⟩
      · simp [matchOffsetCore, hsign, ha, hneg, hh, digitsToNat]
      · rcases hcd with rfl | rfl
        · simp [matchOffsetCore, hsign, ha, hc, hd, hneg, hh, digitsToNat, d2v, Nat.mul_comm]
        · simp [matchOffsetCore, hsign, ha, hc, hd, hneg, hh, digitsToNat, d2v, Nat.mul_comm]
    · have ha : isDigit a = true := by
        have := hdig
        simp [List.all_cons] at this
        exact this.1
      have hb : isDigit b = true := by
        have := hdig
        simp [List.all_cons] at this
        exact this.2
      rcases htail with ⟨rfl, rfl⟩ | ⟨c, d, hcd, hc, hd, rfl⟩
      · simp [matchOffsetCore, hsign, ha, hb, hneg, hh, digitsToNat, Nat.mul_comm]
      · rcases hcd with rfl | rfl
        · have hbc : ¬(b = ':') := isDigit_ne_colon hb
          simp [matchOffsetCore, hsign, ha, hb, hc, hd, hbc, hneg, hh, digitsToNat, d2v,
            Nat.mul_comm]
        · simp [matchOffsetCore, hsign, ha, hb, hc, hd, hneg, hh, digitsToNat, d2v, Nat.mul_comm]
    · simp at hlen

/-- C8 (amended): `offsetLabelToMinutes` accepts, after stripping, exactly
the strings of shape sign, one or two hour digits, optionally followed by
two minute digits with an optional colon (so `±H`, `±HH`, `±H:MM`,
`±HH:MM`, `±HMM`, `±HHMM`), subject to minutes < 60 and hours < 14 or
exactly 14:00, and maps them to sign·(hours·60 + minutes). -/
theorem offsetLabelToMinutes_characterization (s : String) (v : Int) :
    offsetLabelToMinutes s = some v ↔
      s ≠ "" ∧ ∃ neg hrs mins, OffsetShape (stripOffsetLabel s) neg hrs mins
        ∧ mins < 60 ∧ (hrs < 14 ∨ (hrs = 14 ∧ mins = 0))
        ∧ v = (if neg then -((hrs : Int) * 60 + mins) else (hrs : Int) * 60 + mins) := by
  unfold offsetLabelToMinutes
  by_cases hs : s = ""
  · simp [hs]
  · rw [if_neg hs]
    cases hcore : matchOffsetCore (stripOffsetLabel s) with
    | none =>
      simp only [hcore]
      constructor
      · intro hv
        cases hv
      · rintro ⟨-, neg, hrs, mins, hshape, -⟩
        rw [← matchOffsetCore_iff, hcore] at hshape
        cases hshape
    | some t =>
      obtain ⟨neg0, h0, m0⟩ := t
      simp only [hcore]
      constructor
      · intro hv
        split_ifs at hv with hm0 hh0
        · rename_i hneg0
          exact ⟨hs, neg0, h0, m0, (matchOffsetCore_iff _ _ _ _).mp hcore, by omega, by omega,
            by rw [if_pos hneg0]; exact (Option.some.inj hv).symm⟩
        · rename_i hneg0
          exact ⟨hs, neg0, h0, m0, (matchOffsetCore_iff _ _ _ _).mp hcore, by omega, by omega,
            by rw [if_neg hneg0]; exact (Option.some.inj hv).symm⟩
      · rintro ⟨-, neg, hrs, mins, hshape, hm, hh, hv⟩
        have hsame := (matchOffsetCore_iff _ _ _ _).mpr hshape
        rw [hcore] at hsame
        obtain ⟨h1, h2, h3⟩ : neg0 = neg ∧ h0 = hrs ∧ m0 = mins := by
          simpa using hsame
        subst h1; subst h2; subst h3
        rw [if_neg (by omega), if_neg (by omega), hv]

/-- The four offset forms the claim names: `±H`, `±HH`, `±HH:MM`, `±HHMM`. -/
def fourFormOffset (cs : List Char) : Bool :=
  match cs with
  | [s, a] => (s == '+' || s == '-') && isDigit a
  | [s, a, b] => (s == '+' || s == '-') && isDigit a && isDigit b
  | [s, a, b, c, d] => (s == '+' || s == '-') && isDigit a && isDigit b && isDigit c && isDigit d
  | [s, a, b, x, c, d] =>
      (s == '+' || s == '-') && isDigit a && isDigit b && (x == ':') && isDigit c && isDigit d
  | _ => false

/-- C8 counterexample: `"+530"` matches none of the four forms the claim
lists (`±H`, `±HH`, `±HH:MM`, `±HHMM`), yet the parser accepts it and
returns 5 h 30 min = 330 minutes, contradicting "the parser returns no
value exactly when the shape does not match". -/
theorem offsetLabelToMinutes_fourform_counterexample :
    fourFormOffset (stripOffsetLabel "+530") = false
      ∧ offsetLabelToMinutes "+530" = some 330 := by
  constructor
  · decide
  · decide

/-- Witness for C8: the characterization applied at `"UTC+5:30"`. -/
theorem offsetLabelToMinutes_characterization_witness :
    offsetLabelToMinutes "UTC+5:30" = some 330 :=
  (offsetLabelToMinutes_characterization "UTC+5:30" 330).mpr
    ⟨by decide,
     false, 5, 30,
     ⟨'+', ['5'], [':', '3', '0'], by decide, by decide, by decide, by decide, by decide,
      by decide, by decide,
      Or.inr ⟨'3', '0', Or.inr (by decide), by decide, by decide, by decide⟩⟩,
     by decide, by decide, by decide⟩

/-! ## A concrete platform environment for witnesses and counterexamples -/

def mkDay (y m d : Int) : Int := daysFromCivil y m d * msPerDay

def mkMs (y m d h mi : Int) : Int := mkDay y m d + h * 3600000 + mi * 60000

/-- A concrete environment: UTC host, the `Etc/Unknown → Etc/GMT` alias
(the one the spec itself names), the `W. Europe Standard Time` Windows
entry, the America/Los_Angeles PDT→PST transition of 2023-11-05, and a
spring-forward zone `Europe/Test` with a gap at 2025-03-30 02:00 local. -/
def envU : Env :=
  { localZone := "Etc/UTC"
    localOffset := fun _ => 0
    aliasGet := fun z => if z = "Etc/Unknown" then some "Etc/GMT" else none
    validIana := fun z =>
      z = "Etc/GMT" ∨ z = "America/Los_Angeles" ∨ z = "Europe/Berlin" ∨ z = "Europe/Test"
    windowsExact := fun l => if l = "W. Europe Standard Time" then some ["Europe/Berlin"] else none
    windowsIndex := fun l =>
      if l = "w. europe standard time" then some ["Europe/Berlin"] else none
    zoneCivil := fun z ms =>
      if z = "Europe/Berlin" ∨ z = "+01:00" then
        some (civilFromDays (Int.fdiv (ms + 60 * 60000) msPerDay))
      else if z = "America/Los_Angeles" then
        some (civilFromDays (Int.fdiv
          (ms + (if ms < 1699174800000 then (-420 : Int) else -480) * 60000) msPerDay))
      else if z = "Etc/GMT" then some (civilFromDays (Int.fdiv ms msPerDay))
      else none
    zoneModel := fun z =>
      if z = "Europe/Test" then some ⟨1743296400000, 60, 120⟩
      else if z = "America/Los_Angeles" then some ⟨1699174800000, -420, -480⟩
      else if z = "Etc/GMT" then some ⟨0, 0, 0⟩
      else none }

/-! ## Theorems — `parseWithOffset` error contract (claim C10) -/

/-- C10: `parseWithOffset` returns no instant (`undefined`) when the
date-time string matches neither the compact `YYYYMMDDTHHmmss` nor the
extended `YYYY-MM-DDTHH:mm:ss` form — even when the offset argument is
bad — but when the string does parse and the offset cannot be converted
to minutes it throws a `TypeError` ("Invalid offset string: …"), so the
offset must be guarded by the caller. -/
theorem parseWithOffset_error_contract (s offset : String) :
    (matchCompactDT s.data = none → matchExtendedDT s.data = none →
      parseWithOffset s offset = .ok none) ∧
    ((matchCompactDT s.data ≠ none ∨ matchExtendedDT s.data ≠ none) →
      offsetLabelToMinutes offset = none →
      parseWithOffset s offset = .error ("Invalid offset string: " ++ offset)) := by
  constructor
  · intro h1 h2
    unfold parseWithOffset
    simp only [h1, h2]
  · intro h1 h2
    unfold parseWithOffset
    cases hc : matchCompactDT s.data with
    | some f =>
      obtain ⟨y, mo, d, h, mi, sec⟩ := f
      simp only [hc, h2]
    | none =>
      cases he : matchExtendedDT s.data with
      | none =>
        rcases h1 with h1 | h1
        · exact absurd hc h1
        · exact absurd he h1
      | some f =>
        obtain ⟨y, mo, d, h, mi, sec⟩ := f
        simp only [hc, he, h2]

/-- Witness for C10: both branches applied at concrete inputs — a
non-matching string with a bad offset yields `undefined`, a matching
string with a bad offset throws. -/
theorem parseWithOffset_error_contract_witness :
    parseWithOffset "garbage" "bogus" = .ok none
      ∧ parseWithOffset "20250101T120000" "bogus"
          = .error ("Invalid offset string: " ++ "bogus") :=
  ⟨(parseWithOffset_error_contract "garbage" "bogus").1 (by decide) (by decide),
   (parseWithOffset_error_contract "20250101T120000" "bogus").2 (Or.inl (by decide)) (by decide)⟩

/-! ## Theorems — `resolveTZID` totality (claim C9) -/

/-- C9: `resolveTZID` is total — every input, including non-strings and
the empty string, yields a descriptor record and nothing is thrown — and
whenever neither an IANA name nor an offset was derived, the descriptor
retains the original (Microsoft-substituted, quote-stripped) TZID string
while `iana`, `offset`, `offsetMinutes` and `etc` are all absent; for an
ordinary TZID string the retained value is the input itself. -/
theorem resolveTZID_total_contract (env : Env) (v : Option String) :
    (v = none → resolveTZID env v = emptyDescriptor) ∧
    (v = some "" → resolveTZID env v = emptyDescriptor) ∧
    (∀ s, v = some s → s ≠ "" →
      (resolveTZID env v).original
          = some (stripSurroundingQuotes (if isMicrosoftPlaceholder s then env.localZone else s))
        ∧ (¬ isMicrosoftPlaceholder s → stripSurroundingQuotes s = s →
            (resolveTZID env v).original = some s)
        ∧ ((resolveTZID env v).iana = none → (resolveTZID env v).offset = none →
            (resolveTZID env v).offsetMinutes = none ∧ (resolveTZID env v).etc = none)) := by
  refine ⟨fun hv => by rw [hv]; rfl, fun hv => by rw [hv]; rfl, ?_⟩
  rintro s rfl hs
  refine ⟨?_, ?_, ?_⟩
  · simp [resolveTZID, hs]
  · intro hms hq
    simp [resolveTZID, hs, hms, hq]
  · intro hiana hoffset
    have hmin : (resolveTZID env (some s)).offsetMinutes = none := by
      have : (resolveTZID env (some s)).offset
          = ((resolveTZID env (some s)).offsetMinutes).map minutesToOffset := by
        simp [resolveTZID, hs]
      rw [this] at hoffset
      exact Option.map_eq_none'.mp hoffset
    refine ⟨hmin, ?_⟩
    have hetc : (resolveTZID env (some s)).etc
        = (match (resolveTZID env (some s)).offsetMinutes with
           | some om => minutesToEtcZone om
           | none => none) := by
      simp [resolveTZID, hs]
    rw [hetc, hmin]

/-- Witness for C9: the contract applied to an unresolvable ordinary TZID. -/
theorem resolveTZID_total_contract_witness :
    (resolveTZID envU (some "NotAZone123")).original = some "NotAZone123"
      ∧ (resolveTZID envU (some "NotAZone123")).offsetMinutes = none
      ∧ (resolveTZID envU (some "NotAZone123")).etc = none :=
  ⟨((resolveTZID_total_contract envU (some "NotAZone123")).2.2 "NotAZone123" rfl
      (by decide)).2.1 (by decide) (by decide),
   (((resolveTZID_total_contract envU (some "NotAZone123")).2.2 "NotAZone123" rfl
      (by decide)).2.2 (by decide) (by decide)).1,
   (((resolveTZID_total_contract envU (some "NotAZone123")).2.2 "NotAZone123" rfl
      (by decide)).2.2 (by decide) (by decide)).2⟩

/-! ## Theorems — `tz` metadata on produced instants (claim C7) -/

instance {e a : Type} [DecidableEq e] [DecidableEq a] : DecidableEq (Except e a) := fun x y =>
  match x, y with
  | .ok u, .ok v => decidable_of_iff (u = v) (by simp)
  | .error u, .error v => decidable_of_iff (u = v) (by simp)
  | .ok _, .error _ => isFalse (by simp)
  | .error _, .ok _ => isFalse (by simp)

theorem string_data_append (a b : String) : (a ++ b).data = a.data ++ b.data := rfl

theorem minutesToOffset_ne_empty (m : Int) : minutesToOffset m ≠ "" := by
  unfold minutesToOffset
  split_ifs with hm <;>
  · intro h
    have hd := congrArg String.data h
    simp only [string_data_append] at hd
    simp at hd

/-- C7 counterexample: with the alias `Etc/Unknown → Etc/GMT` (the alias
the spec itself names in §4.1), `parseDateTimeInZone` attaches the
caller-supplied identifier `Etc/Unknown` verbatim — not its normalized
form `Etc/GMT` — so not every produced instant carries the zone in
normalized form. -/
theorem parse_tz_metadata_counterexample :
    resolveZone envU "Etc/Unknown" = "Etc/GMT"
      ∧ parseDateTimeInZone envU "2025-01-01T00:00:00" "Etc/Unknown"
          = some { epochMs := 1735689600000, tz := some "Etc/Unknown", dateOnly := false }
      ∧ (some "Etc/Unknown" : Option String) ≠ some "Etc/GMT" := by
  refine ⟨by decide, by decide, by decide⟩

/-- C7 (amended): every instant produced by `parseWithOffset` carries the
offset normalized to its `±HH:MM` label; every instant produced by
`parseDateTimeInZone` carries the zone identifier exactly as supplied by
the caller (aliased or unnormalized zone strings are preserved verbatim,
not canonicalized). -/
theorem parse_tz_metadata (env : Env) :
    (∀ s offset d, parseWithOffset s offset = .ok (some d) →
        ∃ mins, offsetLabelToMinutes offset = some mins
          ∧ d.tz = some (minutesToOffset mins)) ∧
    (∀ s zone d, parseDateTimeInZone env s zone = some d → d.tz = some zone) := by
  constructor
  · intro s offset d hok
    unfold parseWithOffset at hok
    cases hc : matchCompactDT s.data with
    | some f =>
      obtain ⟨y, mo, dd, h, mi, sec⟩ := f
      simp only [hc] at hok
      cases hm : offsetLabelToMinutes offset with
      | none => rw [hm] at hok; cases hok
      | some mins =>
        rw [hm] at hok
        refine ⟨mins, rfl, ?_⟩
        have hd : d = attachTz
            { epochMs := dateUTC y (mo - 1) dd h mi sec - mins * 60000 }
            (minutesToOffset mins) := by
          have := Except.ok.inj hok
          exact (Option.some.inj this).symm
        rw [hd]
        unfold attachTz
        rw [if_neg (minutesToOffset_ne_empty mins)]
    | none =>
      cases he : matchExtendedDT s.data with
      | none => simp only [hc, he] at hok; cases hok
      | some f =>
        obtain ⟨y, mo, dd, h, mi, sec⟩ := f
        simp only [hc, he] at hok
        cases hm : offsetLabelToMinutes offset with
        | none => rw [hm] at hok; cases hok
        | some mins =>
          rw [hm] at hok
          refine ⟨mins, rfl, ?_⟩
          have hd : d = attachTz
              { epochMs := dateUTC y (mo - 1) dd h mi sec - mins * 60000 }
              (minutesToOffset mins) := by
            have := Except.ok.inj hok
            exact (Option.some.inj this).symm
          rw [hd]
          unfold attachTz
          rw [if_neg (minutesToOffset_ne_empty mins)]
  · intro s zone d hok
    unfold parseDateTimeInZone at hok
    cases hf : (match matchExtendedDT s.data with
        | some f => some f
        | none => matchCompactDT s.data) with
    | none => rw [hf] at hok; cases hok
    | some f =>
      obtain ⟨y, mo, dd, h, mi, sec⟩ := f
      rw [hf] at hok
      dsimp only at hok
      by_cases hv : isValidIana env (resolveZone env zone) = true
      · rw [if_neg (by simp [hv])] at hok
        have hzone : zone ≠ "" := by
          intro hz
          rw [hz] at hv
          have : resolveZone env "" = "" := by simp [resolveZone]
          rw [this] at hv
          simp [isValidIana] at hv
        cases hz : env.zoneModel (resolveZone env zone) with
        | none => rw [hz] at hok; cases hok
        | some sz =>
          rw [hz] at hok
          have hd := (Option.some.inj hok).symm
          rw [hd]
          unfold attachTz
          rw [if_neg hzone]
      · rw [if_pos (by simpa using hv)] at hok
        cases hok

/-- Witness for C7: both halves applied at concrete inputs. -/
theorem parse_tz_metadata_witness :
    (∃ mins, offsetLabelToMinutes "+0530" = some mins
        ∧ (({ epochMs := 1735713000000, tz := some "+05:30", dateOnly := false } : JSDate)).tz
            = some (minutesToOffset mins))
      ∧ (({ epochMs := 1699176600000, tz := some "America/Los_Angeles",
            dateOnly := false } : JSDate)).tz = some "America/Los_Angeles" :=
  ⟨(parse_tz_metadata envU).1 "20250101T120000" "+0530"
      { epochMs := 1735713000000, tz := some "+05:30", dateOnly := false } (by decide),
   (parse_tz_metadata envU).2 "2023-11-05T01:30:00" "America/Los_Angeles"
      { epochMs := 1699176600000, tz := some "America/Los_Angeles", dateOnly := false }
      (by decide)⟩

/-! ## Theorems — DST disambiguation of the wall-time converter (claim C6) -/

/-- C6 counterexample: in the spring-forward zone `Europe/Test` (offset
+01:00 before the transition at epoch 1743296400000 = 2025-03-30T01:00Z,
+02:00 after), the local wall times 02:00–02:59 on 2025-03-30 do not
exist; the first instant after the gap is the transition instant
1743296400000 itself. For the in-gap wall time 02:30 the converter does
not return that first post-gap instant: it returns 1743298200000
(= transition + 30 min), i.e. local 03:30. -/
theorem parseDateTimeInZone_gap_counterexample :
    envU.zoneModel "Europe/Test" = some ⟨1743296400000, 60, 120⟩
      ∧ possibleInstants ⟨1743296400000, 60, 120⟩ (wallClockMs 2025 3 30 2 30 0) = []
      ∧ parseDateTimeInZone envU "2025-03-30T02:30:00" "Europe/Test"
          = some { epochMs := 1743298200000, tz := some "Europe/Test", dateOnly := false }
      ∧ (1743298200000 : Int) ≠ 1743296400000 := by
  refine ⟨by decide, by decide, by decide, by decide⟩

/-- C6 (amended): with Temporal's `'later'` policy, a wall time falling in
a DST fold resolves to the second (post-transition) occurrence — the
later of the two possible instants — and a wall time falling in a DST gap
resolves to the instant obtained by interpreting the wall time with the
pre-transition offset, i.e. the wall time pushed forward by the length of
the gap; that instant lies at or after the transition (after the gap),
and equals the first post-gap instant only for the gap's first wall
minute. -/
theorem parseDateTimeInZone_later_disambiguation (env : Env) (s zone : String)
    (y mo d h mi sec : Int) (sz : SimpleZone) (w : Int)
    (hf : matchExtendedDT s.data = some (y, mo, d, h, mi, sec))
    (hv : isValidIana env (resolveZone env zone) = true)
    (hz : env.zoneModel (resolveZone env zone) = some sz)
    (hcon : constrainFields y mo d h mi sec = (y, mo, d, h, mi, sec))
    (hw : w = wallClockMs y mo d h mi sec) :
    (w - sz.before * 60000 < sz.t → w - sz.after * 60000 ≥ sz.t →
      parseDateTimeInZone env s zone
          = some (attachTz { epochMs := w - sz.after * 60000 } zone)
        ∧ w - sz.before * 60000 < w - sz.after * 60000) ∧
    (w - sz.before * 60000 ≥ sz.t → w - sz.after * 60000 < sz.t →
      parseDateTimeInZone env s zone
          = some (attachTz { epochMs := w - sz.before * 60000 } zone)
        ∧ w - sz.before * 60000 ≥ sz.t) := by
  have hbody : parseDateTimeInZone env s zone
      = some (attachTz { epochMs := disambiguateLater sz w } zone) := by
    unfold parseDateTimeInZone
    rw [hf]
    dsimp only
    rw [if_neg (by simp [hv]), hcon, hz]
    dsimp only
    rw [← hw]
  constructor
  · intro h1 h2
    have hposs : possibleInstants sz w = [w - sz.before * 60000, w - sz.after * 60000] := by
      unfold possibleInstants
      rw [if_pos h1, if_pos h2]
      rfl
    refine ⟨?_, lt_of_lt_of_le h1 h2⟩
    rw [hbody]
    unfold disambiguateLater
    rw [hposs]
  · intro h1 h2
    have hposs : possibleInstants sz w = [] := by
      unfold possibleInstants
      rw [if_neg (by omega), if_neg (by omega)]
      rfl
    refine ⟨?_, h1⟩
    rw [hbody]
    unfold disambiguateLater
    rw [hposs]

/-- Witness for C6: the fold half at the 2023-11-05 PDT→PST fall-back in
America/Los_Angeles — wall 01:30 resolves to the second occurrence,
01:30 PST = 09:30Z. -/
theorem parseDateTimeInZone_later_disambiguation_witness :
    parseDateTimeInZone envU "2023-11-05T01:30:00" "America/Los_Angeles"
        = some (attachTz { epochMs := 1699147800000 - (-480) * 60000 } "America/Los_Angeles")
      ∧ (1699147800000 : Int) - (-420) * 60000 < 1699147800000 - (-480) * 60000 :=
  (parseDateTimeInZone_later_disambiguation envU "2023-11-05T01:30:00" "America/Los_Angeles"
      2023 11 5 1 30 0 ⟨1699174800000, -420, -480⟩ 1699147800000
      (by decide) (by decide) (by decide) (by decide) (by decide)).1
    (by decide) (by decide)

/-! ## Theorems — the date-key encoder's rule priority (claim C1) -/

/-- C1: `getDateKey` applies its three rules in exactly this priority
order — a `dateOnly` instant is keyed by its local calendar fields (no
zone conversion), regardless of any `tz`; otherwise an instant whose `tz`
attribute resolves to an IANA zone or a fixed offset is keyed by the
calendar date of the instant viewed in that zone; otherwise the key is
the instant's UTC calendar date. -/
theorem getDateKey_priority (env : Env) (d : JSDate) :
    (d.dateOnly = true → getDateKey env d = localCalendarKey env d.epochMs) ∧
    (d.dateOnly = false → ∀ zs, d.tz = some zs → zs ≠ "" →
      ∀ zid, tzIdOf (resolveTZID env (some zs)) = some zid →
      ∀ c, env.zoneCivil zid d.epochMs = some c →
        getDateKey env d = ymdString c.1 c.2.1 c.2.2) ∧
    (d.dateOnly = false →
      (∀ zs, d.tz = some zs → zs = "" ∨ tzIdOf (resolveTZID env (some zs)) = none) →
      getDateKey env d = utcDateKey d.epochMs) := by
  refine ⟨?_, ?_, ?_⟩
  · intro h
    unfold getDateKey
    rw [if_pos h]
  · intro h zs htz hne zid hid c hc
    unfold getDateKey
    rw [if_neg (by simp [h]), htz]
    dsimp only
    rw [if_pos hne, hid]
    dsimp only
    rw [hc]
  · intro h hno
    unfold getDateKey
    rw [if_neg (by simp [h])]
    cases htz : d.tz with
    | none => rfl
    | some zs =>
      dsimp only
      rcases hno zs htz with hz | hz
      · rw [if_neg (by simp [hz])]
      · by_cases hne : zs = ""
        · rw [if_neg (by simp [hne])]
        · rw [if_pos hne, hz]

/-- Witness for C1: the Exchange `W. Europe Standard Time` case — the
instant 2026-02-25T23:00Z keyed in CET is 2026-02-26. -/
theorem getDateKey_priority_witness :
    getDateKey envU
        { epochMs := 1772060400000, tz := some "W. Europe Standard Time", dateOnly := false }
      = ymdString 2026 2 26 :=
  (getDateKey_priority envU
      { epochMs := 1772060400000, tz := some "W. Europe Standard Time", dateOnly := false }).2.1
    rfl "W. Europe Standard Time" rfl (by decide) "Europe/Berlin" (by decide)
    (2026, 2, 26) (by decide)

/-! ## Expansion-engine lemmas shared across the claims -/

theorem lookupRec_mem {key : String} {l : List (String × OverrideEvent)} {ov : OverrideEvent}
    (h : lookupRec key l = some ov) : (key, ov) ∈ l := by
  induction l with
  | nil => cases h
  | cons p rest ih =>
    obtain ⟨k, o⟩ := p
    unfold lookupRec at h
    split_ifs at h with hk
    · subst hk
      rw [Option.some.inj h]
      exact List.mem_cons_self _ _
    · exact List.mem_cons_of_mem _ (ih h)

/-- Every member of a successful expansion comes from a candidate that the
per-candidate processing accepted and that passed the window filter. -/
theorem mem_of_expand_ok {env : Env} {event : Event} {opts : ExpandOptions}
    {fromMs toMs : Int} {L : List Instance}
    (hok : expand env event (.instant fromMs) (.instant toMs) opts = .ok L)
    {i : Instance} (hi : i ∈ L) :
    ∃ C ∈ candidates event fromMs toMs,
      processCandidate env event opts C = some i
        ∧ windowAccept opts fromMs toMs i = true := by
  unfold expand at hok
  dsimp only at hok
  by_cases hgt : fromMs > toMs
  · rw [if_pos hgt] at hok
    cases hok
  · rw [if_neg hgt] at hok
    have hL := Except.ok.inj hok
    rw [← hL] at hi
    have hi2 := (List.perm_insertionSort
      (fun a b : Instance => a.start.epochMs ≤ b.start.epochMs) _).mem_iff.mp hi
    obtain ⟨himem, hacc⟩ := List.mem_filter.mp hi2
    obtain ⟨C, hC, hpc⟩ := List.mem_filterMap.mp himem
    exact ⟨C, hC, hpc, hacc⟩

/-- Conversely, an accepted candidate that passes the window filter is in
the expansion's output. -/
theorem mem_expand_of {env : Env} {event : Event} {opts : ExpandOptions}
    {fromMs toMs : Int} (hle : fromMs ≤ toMs) {C : JSDate} {i : Instance}
    (hC : C ∈ candidates event fromMs toMs)
    (hpc : processCandidate env event opts C = some i)
    (hacc : windowAccept opts fromMs toMs i = true) :
    ∃ L, expand env event (.instant fromMs) (.instant toMs) opts = .ok L ∧ i ∈ L := by
  refine ⟨List.insertionSort (fun a b => a.start.epochMs ≤ b.start.epochMs)
      (((candidates event fromMs toMs).filterMap (processCandidate env event opts)).filter
        (windowAccept opts fromMs toMs)), ?_, ?_⟩
  · unfold expand
    dsimp only
    rw [if_neg (by omega)]
  · exact (List.perm_insertionSort _ _).mem_iff.mpr
      (List.mem_filter.mpr ⟨List.mem_filterMap.mpr ⟨C, hC, hpc⟩, hacc⟩)

theorem length_filter_filterMap_le {α β : Type} (l : List α) (f : α → Option β)
    (p : β → Bool) (q : α → Bool)
    (h : ∀ a ∈ l, ∀ b, f a = some b → p b = true → q a = true) :
    ((l.filterMap f).filter p).length ≤ (l.filter q).length := by
  induction l with
  | nil => simp
  | cons a rest ih =>
    have hrest := ih fun x hx => h x (List.mem_cons_of_mem _ hx)
    have hqbound : (rest.filter q).length ≤ ((a :: rest).filter q).length := by
      rw [List.filter_cons]
      split <;> simp
    cases hfa : f a with
    | none =>
      rw [List.filterMap_cons_none hfa]
      omega
    | some b =>
      rw [List.filterMap_cons_some hfa]
      rw [List.filter_cons]
      split
      · rename_i hpb
        have hqa : q a = true := h a (List.mem_cons_self _ _) b hfa (by simpa using hpb)
        rw [List.filter_cons, if_pos (by simpa using hqa)]
        simpa using hrest
      · omega

theorem length_filter_eq_le_one {α β : Type} [DecidableEq β] (l : List α) (f : α → β) (K : β)
    (h : (l.map f).Nodup) : (l.filter fun a => f a = K).length ≤ 1 := by
  induction l with
  | nil => simp
  | cons a rest ih =>
    rw [List.map_cons, List.nodup_cons] at h
    rw [List.filter_cons]
    split
    · rename_i hfa
      have hnil : (rest.filter fun x => f x = K) = [] := by
        rw [List.filter_eq_nil_iff]
        intro x hx hfx
        apply h.1
        have : f x = f a := by
          have h1 : f a = K := by simpa using hfa
          have h2 : f x = K := by simpa using hfx
          rw [h1, h2]
        rw [← this]
        exact List.mem_map_of_mem f hx
      simp [hnil]
    · exact ih h.2

theorem length_filter_filter_le {α : Type} (l : List α) (p q : α → Bool) :
    ((l.filter q).filter p).length ≤ (l.filter p).length := by
  induction l with
  | nil => simp
  | cons a rest ih =>
    rw [List.filter_cons, List.filter_cons]
    cases hq : q a with
    | false =>
      rw [if_neg (by simp [hq])]
      cases hp : p a with
      | false => rw [if_neg (by simp [hp])]; exact ih
      | true => rw [if_pos (by simp [hp])]; exact Nat.le_succ_of_le ih
    | true =>
      rw [if_pos (by simp [hq]), List.filter_cons]
      cases hp : p a with
      | false => rw [if_neg (by simp [hp]), if_neg (by simp [hp])]; exact ih
      | true =>
        rw [if_pos (by simp [hp]), if_pos (by simp [hp])]
        simp only [List.length_cons]
        omega

/-! ## Concrete events used by the expansion-engine claims -/

/-- Whole-day daily candidates Jan 1 … Jan 15, 2025. -/
def janDates : List JSDate :=
  (List.range 15).map fun n => { epochMs := mkDay 2025 1 1 + n * msPerDay, dateOnly := true }

/-- A whole-day daily event starting 2025-01-01 (scenario of §8.6). -/
def ev4 : Event :=
  { uid := "u4", summary := "Daily", start := { epochMs := mkDay 2025 1 1, dateOnly := true },
    datetype := .date,
    rrule := some ⟨fun a b => janDates.filter fun d => a ≤ d.epochMs ∧ d.epochMs ≤ b⟩ }

/-- The UTC instants of the weekly 16:00 America/Los_Angeles event around
the 2023-11-05 DST switch (16:00 PDT = 23:00Z; 16:00 PST = next day 00:00Z). -/
def laStarts : List JSDate :=
  [ { epochMs := mkMs 2023 10 25 23 0 }, { epochMs := mkMs 2023 11 1 23 0 },
    { epochMs := mkMs 2023 11 9 0 0 }, { epochMs := mkMs 2023 11 16 0 0 } ]

/-- The weekly 16:00 Los Angeles event with the DST-crossing EXDATE: the
parser stores both the local calendar key and the full ISO key. -/
def ev2 : Event :=
  { uid := "u2", summary := "Weekly 4pm LA",
    start := { epochMs := mkMs 2023 10 25 23 0, tz := some "America/Los_Angeles" },
    endTime := some { epochMs := mkMs 2023 10 26 0 0, tz := some "America/Los_Angeles" },
    rrule := some ⟨fun a b => laStarts.filter fun d => a ≤ d.epochMs ∧ d.epochMs ≤ b⟩,
    exdate := ["2023-11-08", "2023-11-09T00:00:00.000Z"] }

/-- Daily timed candidates Jan 6 … Jan 10, 2025, 10:00Z. -/
def dailyTimed : List JSDate :=
  (List.range 5).map fun n => { epochMs := mkMs 2025 1 6 10 0 + n * msPerDay }

/-- An override moved onto the excluded date 2025-01-09. -/
def ovX : OverrideEvent :=
  { summary := "Moved onto excluded", start := { epochMs := mkMs 2025 1 9 10 0 },
    endTime := some { epochMs := mkMs 2025 1 9 11 0 } }

/-- Daily event with EXDATE 2025-01-09 and an override for 2025-01-08
whose start was moved onto 2025-01-09. -/
def evX : Event :=
  { uid := "ux", summary := "Daily Meeting", start := { epochMs := mkMs 2025 1 6 10 0 },
    endTime := some { epochMs := mkMs 2025 1 6 11 0 },
    rrule := some ⟨fun a b => dailyTimed.filter fun d => a ≤ d.epochMs ∧ d.epochMs ≤ b⟩,
    exdate := ["2025-01-09"],
    recurrences := [("2025-01-08", ovX)] }

/-- The moved-time override of the `should use override DTSTART` test. -/
def ov3 : OverrideEvent :=
  { summary := "Daily Meeting (Moved)", start := { epochMs := mkMs 2025 1 8 14 0 },
    endTime := some { epochMs := mkMs 2025 1 8 15 0 } }

/-- Daily 10:00Z event with the 2025-01-08 occurrence moved to 14:00Z. -/
def ev3 : Event :=
  { uid := "u3", summary := "Daily Meeting", start := { epochMs := mkMs 2025 1 6 10 0 },
    endTime := some { epochMs := mkMs 2025 1 6 11 0 },
    rrule := some ⟨fun a b => dailyTimed.filter fun d => a ≤ d.epochMs ∧ d.epochMs ≤ b⟩,
    recurrences := [("2025-01-08", ov3)] }

/-! ## Theorems — `expand` input validation (claim C5) -/

/-- C5: `expand` raises `InvalidArgument` when `from` or `to` is not a
valid instant (not a `Date`, or a NaN date), raises `RangeError` when
`from > to`, and enforces no other precondition: for every event and
every valid `from ≤ to` it returns a list of instances. In the error
cases nothing but the error is produced. -/
theorem expand_validation (env : Env) (event : Event) (rfrom rto : ReqDate)
    (opts : ExpandOptions) :
    ((rfrom = .notADate ∨ rfrom = .nanDate ∨ rto = .notADate ∨ rto = .nanDate) →
      expand env event rfrom rto opts = .error .invalidArgument) ∧
    (∀ a b, rfrom = .instant a → rto = .instant b → a > b →
      expand env event rfrom rto opts = .error .rangeError) ∧
    (∀ a b, rfrom = .instant a → rto = .instant b → a ≤ b →
      ∃ L, expand env event rfrom rto opts = .ok L) := by
  refine ⟨?_, ?_, ?_⟩
  · intro h
    rcases h with h | h | h | h <;> rw [h] <;> cases rfrom <;> cases rto <;> rfl
  · intro a b ha hb hab
    rw [ha, hb]
    unfold expand
    dsimp only
    rw [if_pos hab]
  · intro a b ha hb hab
    rw [ha, hb]
    unfold expand
    dsimp only
    rw [if_neg (by omega)]
    exact ⟨_, rfl⟩

/-- Witness for C5: all three branches at concrete inputs. -/
theorem expand_validation_witness :
    expand envU ev3 .nanDate (.instant 0) ({} : ExpandOptions) = .error .invalidArgument
      ∧ expand envU ev3 (.instant 5) (.instant 0) ({} : ExpandOptions) = .error .rangeError
      ∧ ∃ L, expand envU ev3 (.instant 0) (.instant 5) ({} : ExpandOptions) = .ok L :=
  ⟨(expand_validation envU ev3 .nanDate (.instant 0) {}).1 (Or.inr (Or.inl rfl)),
   (expand_validation envU ev3 (.instant 5) (.instant 0) {}).2.1 5 0 rfl rfl (by omega),
   (expand_validation envU ev3 (.instant 0) (.instant 5) {}).2.2 0 5 rfl rfl (by omega)⟩

/-- The list a successful expansion returns. -/
def expandOkList (env : Env) (event : Event) (fromMs toMs : Int) (opts : ExpandOptions) :
    List Instance :=
  List.insertionSort (fun a b => a.start.epochMs ≤ b.start.epochMs)
    (((candidates event fromMs toMs).filterMap (processCandidate env event opts)).filter
      (windowAccept opts fromMs toMs))

theorem expand_eq_ok {env : Env} {event : Event} {opts : ExpandOptions} {fromMs toMs : Int}
    (hle : fromMs ≤ toMs) :
    expand env event (.instant fromMs) (.instant toMs) opts
      = .ok (expandOkList env event fromMs toMs opts) := by
  unfold expand expandOkList
  dsimp only
  rw [if_neg (by omega)]

/-! ## Theorems — the window filter of `expand` (claim C4) -/

/-- C4: the window filter of `expand` — with `expandOngoing=false` an
emitted instance satisfies `from ≤ start ≤ to`; with `expandOngoing=true`
it satisfies `start ≤ to` and `end ≥ from`; conversely every accepted
candidate whose instance passes the respective filter is emitted; and on
the concrete daily whole-day event from Jan 1 with window Jan 5 – Jan 10
this yields 6 instances without `expandOngoing` and 7 with it, the extra
one being the Jan 4 occurrence whose end falls on Jan 5. -/
theorem expand_window_filter :
    (∀ (env : Env) (event : Event) (fromMs toMs : Int) (opts : ExpandOptions) L,
      opts.expandOngoing = false →
      expand env event (.instant fromMs) (.instant toMs) opts = .ok L →
      ∀ i ∈ L, fromMs ≤ i.start.epochMs ∧ i.start.epochMs ≤ toMs) ∧
    (∀ (env : Env) (event : Event) (fromMs toMs : Int) (opts : ExpandOptions) L,
      opts.expandOngoing = true →
      expand env event (.instant fromMs) (.instant toMs) opts = .ok L →
      ∀ i ∈ L, i.start.epochMs ≤ toMs ∧ fromMs ≤ i.endTime.epochMs) ∧
    (∀ (env : Env) (event : Event) (fromMs toMs : Int) (opts : ExpandOptions) (C : JSDate) i,
      fromMs ≤ toMs →
      C ∈ candidates event fromMs toMs →
      processCandidate env event opts C = some i →
      windowAccept opts fromMs toMs i = true →
      ∃ L, expand env event (.instant fromMs) (.instant toMs) opts = .ok L ∧ i ∈ L) ∧
    ((expand envU ev4 (.instant (mkDay 2025 1 5)) (.instant (mkDay 2025 1 10))
        ({} : ExpandOptions)).map List.length = .ok 6) ∧
    ((expand envU ev4 (.instant (mkDay 2025 1 5)) (.instant (mkDay 2025 1 10))
        { expandOngoing := true }).map (List.map fun i => i.start.epochMs)
      = .ok [mkDay 2025 1 4, mkDay 2025 1 5, mkDay 2025 1 6, mkDay 2025 1 7,
             mkDay 2025 1 8, mkDay 2025 1 9, mkDay 2025 1 10]) := by
  refine ⟨?_, ?_, ?_, by decide, by decide⟩
  · intro env event fromMs toMs opts L hong hok i hi
    obtain ⟨C, hC, hpc, hacc⟩ := mem_of_expand_ok hok hi
    unfold windowAccept at hacc
    rw [hong] at hacc
    simpa using hacc
  · intro env event fromMs toMs opts L hong hok i hi
    obtain ⟨C, hC, hpc, hacc⟩ := mem_of_expand_ok hok hi
    unfold windowAccept at hacc
    rw [hong] at hacc
    have := by simpa using hacc
    exact ⟨this.1, this.2⟩
  · intro env event fromMs toMs opts C i hle hC hpc hacc
    exact mem_expand_of hle hC hpc hacc

/-- Witness for C4: the general bound applied to the Jan 5 instance of the
concrete expansion. -/
theorem expand_window_filter_witness :
    mkDay 2025 1 5
        ≤ (⟨⟨mkDay 2025 1 5, none, true⟩, ⟨mkDay 2025 1 6, none, true⟩, "Daily",
            true, true, false, .base⟩ : Instance).start.epochMs
      ∧ (⟨⟨mkDay 2025 1 5, none, true⟩, ⟨mkDay 2025 1 6, none, true⟩, "Daily",
            true, true, false, .base⟩ : Instance).start.epochMs ≤ mkDay 2025 1 10 :=
  expand_window_filter.1 envU ev4 (mkDay 2025 1 5) (mkDay 2025 1 10) {}
    (expandOkList envU ev4 (mkDay 2025 1 5) (mkDay 2025 1 10) {}) rfl
    (expand_eq_ok (by decide))
    ⟨⟨mkDay 2025 1 5, none, true⟩, ⟨mkDay 2025 1 6, none, true⟩, "Daily",
      true, true, false, .base⟩ (by decide)

/-! ## Theorems — EXDATE subtraction (claim C2) -/

/-- C2 counterexample: `evX` has the EXDATE key "2025-01-09", yet the
expansion (both options on) emits an instance whose start has date key
"2025-01-09" — the override stored under "2025-01-08" was moved onto the
excluded date — so the claim's consequence "no emitted instance has
`keyOf(start) = K`" is false as stated. -/
theorem expand_exdate_counterexample :
    evX.exdate = ["2025-01-09"]
      ∧ (expand envU evX (.instant (mkDay 2025 1 6)) (.instant (mkDay 2025 1 11))
            ({} : ExpandOptions)).map (List.map fun i => (getDateKey envU i.start, i.isOverride))
          = .ok [("2025-01-06", false), ("2025-01-07", false), ("2025-01-09", true),
                 ("2025-01-10", false)] :=
  ⟨rfl, by decide⟩

/-- C2 (amended): with `excludeExdates=true` a candidate C is skipped
exactly when `getDateKey(C)` or C's full ISO timestamp is a key of
`event.exdate` — candidates matching neither key form are processed
exactly as if exclusion were off, and every emitted instance stems from a
candidate matching neither form (though an override substituted for a
different key may itself start on an excluded date). The DST-crossing
scenario holds: the weekly 16:00 Los Angeles event with EXDATE
2023-11-08T16:00 local (= 2023-11-09T00:00:00Z) has no instance at that
UTC instant while the adjacent weeks remain. -/
theorem expand_exdate_semantics :
    (∀ (env : Env) (event : Event) (opts : ExpandOptions) (C : JSDate),
      opts.excludeExdates = true →
      (event.exdate.contains (getDateKey env C)
          ∨ event.exdate.contains (toISOString C.epochMs)) →
      processCandidate env event opts C = none) ∧
    (∀ (env : Env) (event : Event) (opts : ExpandOptions) (C : JSDate),
      ¬(event.exdate.contains (getDateKey env C)
          ∨ event.exdate.contains (toISOString C.epochMs)) →
      processCandidate env event opts C
        = processCandidate env event { opts with excludeExdates := false } C) ∧
    (∀ (env : Env) (event : Event) (opts : ExpandOptions) (fromMs toMs : Int) L i,
      opts.excludeExdates = true →
      expand env event (.instant fromMs) (.instant toMs) opts = .ok L → i ∈ L →
      ∃ C ∈ candidates event fromMs toMs,
        processCandidate env event opts C = some i
          ∧ ¬(event.exdate.contains (getDateKey env C)
              ∨ event.exdate.contains (toISOString C.epochMs))) ∧
    ((expand envU ev2 (.instant (mkDay 2023 10 20)) (.instant (mkDay 2023 11 20))
        ({} : ExpandOptions)).map (List.map fun i => toISOString i.start.epochMs)
      = .ok ["2023-10-25T23:00:00.000Z", "2023-11-01T23:00:00.000Z",
             "2023-11-16T00:00:00.000Z"]) := by
  refine ⟨?_, ?_, ?_, by decide⟩
  · intro env event opts C hex hcond
    unfold processCandidate
    rw [if_pos ⟨hex, hcond⟩]
  · intro env event opts C hcond
    have hc1 : ¬(opts.excludeExdates = true
        ∧ (event.exdate.contains (getDateKey env C) = true
          ∨ event.exdate.contains (toISOString C.epochMs) = true)) := fun h => hcond h.2
    have hc2 : ¬((false = true)
        ∧ (event.exdate.contains (getDateKey env C) = true
          ∨ event.exdate.contains (toISOString C.epochMs) = true)) := fun h => hcond h.2
    unfold processCandidate
    dsimp only
    rw [if_neg hc1, if_neg hc2]
  · intro env event opts fromMs toMs L i hex hok hi
    obtain ⟨C, hC, hpc, hacc⟩ := mem_of_expand_ok hok hi
    refine ⟨C, hC, hpc, fun hcond => ?_⟩
    unfold processCandidate at hpc
    rw [if_pos ⟨hex, hcond⟩] at hpc
    cases hpc

/-- Witness for C2: the skip rule applied to the RRULE-generated candidate
2023-11-09T00:00:00Z of the Los Angeles event (matched via the ISO key). -/
theorem expand_exdate_semantics_witness :
    processCandidate envU ev2 ({} : ExpandOptions) { epochMs := 1699488000000 } = none :=
  expand_exdate_semantics.1 envU ev2 {} { epochMs := 1699488000000 } rfl (Or.inr (by decide))

/-! ## Theorems — RECURRENCE-ID override substitution (claim C3) -/

/-- Case analysis of one processed candidate whose resulting instance has
date key K: under the keying assumptions it must be the K-override. -/
theorem processCandidate_key_override {env : Env} {event : Event} {opts : ExpandOptions}
    (hIncl : opts.includeOverrides = true)
    {K : String} {ov : OverrideEvent} (hK : lookupRec K event.recurrences = some ov)
    (hNoClash : ∀ p ∈ event.recurrences, p.1 ≠ K → getDateKey env p.2.start ≠ K)
    {C : JSDate}
    (hMeta : getDateKey env
        { epochMs := C.epochMs, tz := event.start.tz, dateOnly := event.start.dateOnly }
        = getDateKey env C)
    {i : Instance} (hpc : processCandidate env event opts C = some i)
    (hkey : getDateKey env i.start = K) :
    getDateKey env C = K ∧ i.isOverride = true ∧ i.evRef = .override ov ∧ i.start = ov.start
      ∧ i.summary = ov.summary ∧ (∀ oe, ov.endTime = some oe → i.endTime = oe) := by
  unfold processCandidate at hpc
  by_cases hskip : opts.excludeExdates = true
      ∧ (event.exdate.contains (getDateKey env C)
          ∨ event.exdate.contains (toISOString C.epochMs))
  · rw [if_pos hskip] at hpc
    cases hpc
  · rw [if_neg hskip] at hpc
    rw [if_pos hIncl] at hpc
    cases hov : lookupRec (getDateKey env C) event.recurrences with
    | some ov' =>
      rw [hov] at hpc
      dsimp only at hpc
      have hi := (Option.some.inj hpc).symm
      rw [hi] at hkey
      dsimp only at hkey
      by_cases hck : getDateKey env C = K
      · rw [hck] at hov
        have hoveq : ov' = ov := Option.some.inj (hov.symm.trans hK)
        subst hoveq
        refine ⟨hck, by rw [hi], by rw [hi], by rw [hi], by rw [hi], ?_⟩
        intro oe hoe
        rw [hi, hoe]
      · exact absurd hkey (hNoClash _ (lookupRec_mem hov) hck)
    | none =>
      rw [hov] at hpc
      dsimp only at hpc
      have hi := (Option.some.inj hpc).symm
      rw [hi] at hkey
      dsimp only at hkey
      rw [hMeta] at hkey
      rw [hkey, hK] at hov
      cases hov

/-- Two overrides colliding on one date: ovA (stored under 2025-01-07) is
moved onto 2025-01-08, which also has its own override ovB. -/
def ovA : OverrideEvent :=
  { summary := "A moved onto Jan 8", start := { epochMs := mkMs 2025 1 8 10 0 },
    endTime := some { epochMs := mkMs 2025 1 8 11 0 } }

def ovB : OverrideEvent :=
  { summary := "B on Jan 8", start := { epochMs := mkMs 2025 1 8 12 0 },
    endTime := some { epochMs := mkMs 2025 1 8 13 0 } }

/-- Daily event with two overrides whose starts land on the same date. -/
def evY : Event :=
  { uid := "uy", summary := "Daily", start := { epochMs := mkMs 2025 1 6 10 0 },
    endTime := some { epochMs := mkMs 2025 1 6 11 0 },
    rrule := some ⟨fun a b => dailyTimed.filter fun d => a ≤ d.epochMs ∧ d.epochMs ≤ b⟩,
    recurrences := [("2025-01-07", ovA), ("2025-01-08", ovB)] }

/-- C3 counterexample: for K = "2025-01-08" — a key of `evY.recurrences` —
the expansion emits two instances with that effective date (the override
of 2025-01-07 was moved onto Jan 8, next to Jan 8's own override), so "at
most one emitted instance has that effective date" is false as stated. -/
theorem expand_override_counterexample :
    lookupRec "2025-01-08" evY.recurrences = some ovB
      ∧ ((expandOkList envU evY (mkDay 2025 1 6) (mkDay 2025 1 11) {}).filter
            fun i => getDateKey envU i.start = "2025-01-08").length = 2
      ∧ expand envU evY (.instant (mkDay 2025 1 6)) (.instant (mkDay 2025 1 11))
            ({} : ExpandOptions)
          = .ok (expandOkList envU evY (mkDay 2025 1 6) (mkDay 2025 1 11) {}) :=
  ⟨by decide, by decide, expand_eq_ok (by decide)⟩

/-- C3 (amended): with `includeOverrides=true`, under the engine's keying
assumptions (candidates carry pairwise-distinct date keys, metadata
inheritance preserves a candidate's key, and no override stored under
another key starts on date K — conditions met by well-formed parser
output), the override stored under key K replaces and never duplicates
the base occurrence with key K: at most one emitted instance has date
key K; any such instance is an override whose `event` field references
the override record and whose start, end and summary come verbatim from
it; and no non-override instance is emitted with key K. -/
theorem expand_override_semantics (env : Env) (event : Event) (opts : ExpandOptions)
    (fromMs toMs : Int) (L : List Instance) (K : String) (ov : OverrideEvent)
    (hIncl : opts.includeOverrides = true)
    (hok : expand env event (.instant fromMs) (.instant toMs) opts = .ok L)
    (hK : lookupRec K event.recurrences = some ov)
    (hNodup : ((candidates event fromMs toMs).map (getDateKey env)).Nodup)
    (hMeta : ∀ C ∈ candidates event fromMs toMs,
      getDateKey env ⟨C.epochMs, event.start.tz, event.start.dateOnly⟩ = getDateKey env C)
    (hNoClash : ∀ p ∈ event.recurrences, p.1 ≠ K → getDateKey env p.2.start ≠ K) :
    ((L.filter fun i => getDateKey env i.start = K).length ≤ 1) ∧
    (∀ i ∈ L, getDateKey env i.start = K →
      i.isOverride = true ∧ i.evRef = .override ov ∧ i.start = ov.start
        ∧ i.summary = ov.summary ∧ (∀ oe, ov.endTime = some oe → i.endTime = oe)) ∧
    (∀ i ∈ L, i.isOverride = false → getDateKey env i.start ≠ K) := by
  refine ⟨?_, ?_, ?_⟩
  · unfold expand at hok
    dsimp only at hok
    by_cases hgt : fromMs > toMs
    · rw [if_pos hgt] at hok
      cases hok
    · rw [if_neg hgt] at hok
      have hL := (Except.ok.inj hok).symm
      subst hL
      have hperm := (List.perm_insertionSort
          (fun a b : Instance => a.start.epochMs ≤ b.start.epochMs)
          (((candidates event fromMs toMs).filterMap
              (processCandidate env event opts)).filter
            (windowAccept opts fromMs toMs))).filter
          (fun i => getDateKey env i.start = K)
      rw [hperm.length_eq]
      refine le_trans (length_filter_filter_le _ _ _) ?_
      refine le_trans (length_filter_filterMap_le _ _ _
          (fun C => getDateKey env C = K) ?_) ?_
      · intro C hC i hpc hkeyb
        have hkey : getDateKey env i.start = K := by simpa using hkeyb
        have := processCandidate_key_override hIncl hK hNoClash (hMeta C hC) hpc hkey
        simpa using this.1
      · exact length_filter_eq_le_one _ (getDateKey env) K hNodup
  · intro i hi hkey
    obtain ⟨C, hC, hpc, -⟩ := mem_of_expand_ok hok hi
    have h := processCandidate_key_override hIncl hK hNoClash (hMeta C hC) hpc hkey
    exact ⟨h.2.1, h.2.2.1, h.2.2.2.1, h.2.2.2.2.1, h.2.2.2.2.2⟩
  · intro i hi hbase hkey
    obtain ⟨C, hC, hpc, -⟩ := mem_of_expand_ok hok hi
    have h := processCandidate_key_override hIncl hK hNoClash (hMeta C hC) hpc hkey
    rw [hbase] at h
    cases h.2.1

/-- Witness for C3: the moved-time override scenario — the expansion list
of `ev3` has at most one instance keyed 2025-01-08. -/
theorem expand_override_semantics_witness :
    ((expandOkList envU ev3 (mkDay 2025 1 6) (mkDay 2025 1 11) {}).filter
        fun i => getDateKey envU i.start = "2025-01-08").length ≤ 1 :=
  (expand_override_semantics envU ev3 {} (mkDay 2025 1 6) (mkDay 2025 1 11)
      (expandOkList envU ev3 (mkDay 2025 1 6) (mkDay 2025 1 11) {}) "2025-01-08" ov3
      rfl (expand_eq_ok (by decide)) (by decide) (by decide) (by decide) (by decide)).1

end NodeIcal
